import Mathlib

/-!
Shallow embedding of the HydraAI coordinator core (src/coordinator.py,
src/database.py, src/model.py): the parameter store and blend rule, the
task ledger backed by the SQLite tables, and the coordinator's request
handlers.  SQLite REAL token amounts and tensor entries are modelled as
rationals; timestamps and generated ids are opaque strings passed in by
the caller.
-/

namespace Hydra

/-- A numeric tensor as exchanged between workers and the coordinator:
a shape (list of dimension sizes, row-major) and flat data.  Mirrors the
nested Python lists produced by `param.data.cpu().numpy().tolist()` in
`model.py:get_trainable_parameters`. -/
structure Tensor where
  shape : List Nat
  data : List ℚ
deriving DecidableEq

/-- NumPy/PyTorch broadcast of two shape lists given in reversed
(trailing-dimension-first) order: dimensions pair up from the right, each
pair must be equal or contain a 1, and the result takes the larger. -/
def bcRev : List Nat → List Nat → Option (List Nat)
  | [], t => some t
  | a :: s, [] => some (a :: s)
  | a :: s, b :: t =>
    match bcRev s t with
    | none => none
    | some r =>
      if a = b then some (a :: r)
      else if a = 1 then some (b :: r)
      else if b = 1 then some (a :: r)
      else none

/-- Broadcast two row-major shapes (right-aligned), as `torch` does for
elementwise arithmetic; `none` when the shapes are incompatible. -/
def broadcastShape (s t : List Nat) : Option (List Nat) :=
  (bcRev s.reverse t.reverse).map List.reverse

/-- Row-major multi-index of linear index `i` in a shape given reversed:
the result lists the last coordinate first. -/
def unflattenRev : List Nat → Nat → List Nat
  | [], _ => []
  | d :: ds, i => (i % d) :: unflattenRev ds (i / d)

/-- Linear index from reversed dimensions and reversed coordinates. -/
def flattenRev : List Nat → List Nat → Nat
  | [], _ => 0
  | _, [] => 0
  | d :: ds, c :: cs => c + d * flattenRev ds cs

/-- Read entry `i` of tensor `t` broadcast to result shape `s`: size-1
source dimensions are pinned to coordinate 0, missing leading dimensions
are dropped. -/
def bGet (t : Tensor) (s : List Nat) (i : Nat) : ℚ :=
  let rIdx := unflattenRev s.reverse i
  let sdims := t.shape.reverse
  let coords := (List.zip sdims rIdx).map (fun p => if p.1 = 1 then 0 else p.2)
  t.data.getD (flattenRev sdims coords) 0

/-- The torch expression `(1 - w) * global_values + w * worker_tensor`
from `coordinator.py:aggregate_parameters` (lines 364-368): elementwise
on equal shapes, broadcasting otherwise, `none` when the shapes are not
broadcast-compatible (torch raises a RuntimeError there). -/
def combineTensor (w : ℚ) (a b : Tensor) : Option Tensor :=
  if a.shape = b.shape then
    some ⟨a.shape, List.zipWith (fun x y => (1 - w) * x + w * y) a.data b.data⟩
  else
    match broadcastShape a.shape b.shape with
    | none => none
    | some s =>
      some ⟨s, (List.range s.prod).map (fun i => (1 - w) * bGet a s i + w * bGet b s i)⟩

/-- A named parameter mapping (a Python dict of name to tensor), kept in
insertion order. -/
abbrev Params := List (String × Tensor)

/-- First value stored under key `n` (Python dict lookup). -/
def findVal (n : String) : Params → Option Tensor
  | [] => none
  | p :: rest => if p.1 = n then some p.2 else findVal n rest

/-- Python dict assignment `d[n] = v` for a key already present. -/
def setAssoc : Params → String → Tensor → Params
  | [], _, _ => []
  | p :: rest, n, v => (if p.1 = n then (p.1, v) else p) :: setAssoc rest n v

/-- The `for param_name, worker_values in worker_parameters.items()` loop
of `coordinator.py:aggregate_parameters` (lines 361-371): names present
in the current parameters are blended via `combineTensor`, unknown names
are skipped, a torch failure aborts the whole call (`none`). -/
def blendLoop (w : ℚ) : Params → Params → Option Params
  | [], cur => some cur
  | p :: rest, cur =>
    match findVal p.1 cur with
    | none => blendLoop w rest cur
    | some gv =>
      match combineTensor w gv p.2 with
      | none => none
      | some nv => blendLoop w rest (setAssoc cur p.1 nv)

/-- `model.py:set_parameters` (lines 139-156): `load_state_dict` with
`strict=False` ignores extra or missing names but still raises on any
size mismatch between a supplied tensor and the model's parameter.
The raise is modelled as `none`, recording only that the call signals a
failure: real torch copies the matching-shape entries into the live
model before raising, so a size-mismatch load is a partial in-place
update, not a rollback.  That partial-copy detail is not represented;
none of the theorems below reason about a blend that reaches a
size-mismatch load (the blend-loop failure they do reason about occurs
before any load). -/
def set_parameters (newp model : Params) : Option Params :=
  if model.all (fun q =>
      match findVal q.1 newp with
      | none => true
      | some t => decide (t.shape = q.2.shape)) then
    some (model.map (fun q => (q.1, (findVal q.1 newp).getD q.2)))
  else none

/-- `coordinator.py:aggregate_parameters` (lines 344-375) as a function
of the current global parameters: snapshot the parameters, blend the
worker update in, load the staged dict back; `none` models the torch
RuntimeError paths, in which case the model object is never written. -/
def aggregate_parameters (w : ℚ) (upd model : Params) : Option Params :=
  match blendLoop w upd model with
  | none => none
  | some cp => set_parameters cp model

/-- A sequence of `aggregate_parameters` calls as performed by repeated
`submit_result` requests: a failed blend raises and leaves the model
object unchanged. -/
def applyBlends (blends : List (ℚ × Params)) (model : Params) : Params :=
  blends.foldl (fun m b => (aggregate_parameters b.1 b.2 m).getD m) model

/-- One row of the `users` table (database.py, lines 49-56). -/
structure UserRec where
  user_id : String
  created_at : String
  total_tokens : ℚ
  total_work_done : Int
deriving DecidableEq

/-- One row of the `tasks` table (database.py, lines 59-70). `status`
ranges over the strings the code writes: `pending`, `assigned`,
`completed`, `failed`. -/
structure TaskRec where
  task_id : String
  created_at : String
  assigned_to : Option String
  status : String
  data_batch : List String
  result : Option Params
  tokens_reward : ℚ
  completed_at : Option String
deriving DecidableEq

/-- One row of the append-only `transactions` table (database.py,
lines 73-82). -/
structure TxnRec where
  user_id : String
  amount : ℚ
  kind : String
  description : String
  timestamp : String
deriving DecidableEq

/-- The SQLite database state: the three tables, rows in rowid order. -/
structure Db where
  users : List UserRec
  tasks : List TaskRec
  txns : List TxnRec
deriving DecidableEq

/-- First row of a user list matching `user_id = uid`. -/
def findUser (uid : String) : List UserRec → Option UserRec
  | [] => none
  | u :: rest => if u.user_id = uid then some u else findUser uid rest

/-- Whether some row matches `user_id = uid` (the PRIMARY KEY probe). -/
def hasUser (uid : String) : List UserRec → Bool
  | [] => false
  | u :: rest => if u.user_id = uid then true else hasUser uid rest

/-- `SELECT * FROM users WHERE user_id = ?` returning the first row
(database.py:get_user, lines 116-133). -/
def get_user (uid : String) (db : Db) : Option UserRec :=
  findUser uid db.users

/-- `database.py:create_user` (lines 86-114): INSERT a fresh row with 0
tokens; the PRIMARY KEY constraint makes the insert fail (returning
`false`) when the user already exists, leaving the table untouched. -/
def create_user (uid now : String) (db : Db) : Bool × Db :=
  if hasUser uid db.users then (false, db)
  else (true, { db with users := db.users ++ [⟨uid, now, 0, 0⟩] })

/-- `database.py:add_tokens` (lines 135-170): add `amount` to the
balance of every `users` row matching `uid`, then append exactly one
transaction row recording the same amount. -/
def add_tokens (uid : String) (amount : ℚ) (kind description now : String) (db : Db) : Db :=
  { db with
    users := db.users.map (fun u =>
      if u.user_id = uid then { u with total_tokens := u.total_tokens + amount } else u),
    txns := db.txns ++ [⟨uid, amount, kind, description, now⟩] }

/-- `database.py:create_task` (lines 172-197): INSERT a new `pending`
task row; `assigned_to`, `result` and `completed_at` stay NULL. -/
def create_task (tid : String) (data_batch : List String) (tokens_reward : ℚ)
    (now : String) (db : Db) : Db :=
  { db with tasks := db.tasks ++ [⟨tid, now, none, "pending", data_batch, none, tokens_reward, none⟩] }

/-- First task row with status `pending`, in rowid order. -/
def findPending : List TaskRec → Option TaskRec
  | [] => none
  | t :: rest => if t.status = "pending" then some t else findPending rest

/-- `database.py:get_pending_task` (lines 199-217):
`SELECT * FROM tasks WHERE status = 'pending' LIMIT 1`. -/
def get_pending_task (db : Db) : Option TaskRec :=
  findPending db.tasks

/-- `database.py:assign_task` (lines 219-234): UPDATE the matching task
row to `assigned` with `assigned_to` set — unconditionally, with no
check of the row's current status. -/
def assign_task (tid uid : String) (db : Db) : Db :=
  { db with tasks := db.tasks.map (fun t =>
      if t.task_id = tid then { t with status := "assigned", assigned_to := some uid } else t) }

/-- `database.py:complete_task` (lines 236-257): UPDATE the matching
task row to `completed`, storing the result and completion time — again
with no check of the row's current status, and matching zero rows when
the task id is unknown. -/
def complete_task (tid : String) (result : Params) (now : String) (db : Db) : Db :=
  { db with tasks := db.tasks.map (fun t =>
      if t.task_id = tid
      then { t with status := "completed", result := some result, completed_at := some now }
      else t) }

/-- Sum of the amounts of one user's transaction records. -/
def txnSum (uid : String) (txns : List TxnRec) : ℚ :=
  ((txns.filter (fun t => t.user_id = uid)).map (fun t => t.amount)).sum

/-- Every stored balance equals the sum of that user's transactions. -/
def balancedDb (db : Db) : Prop :=
  ∀ u ∈ db.users, u.total_tokens = txnSum u.user_id db.txns

/-- Every transaction belongs to an existing user account. -/
def txnsBacked (db : Db) : Prop :=
  ∀ t ∈ db.txns, ∃ u ∈ db.users, u.user_id = t.user_id

/-- Coordinator state: the database plus the in-memory global model
parameters (`coordinator.py`, `self.db` and `self.model`). -/
structure Coord where
  db : Db
  model : Params
deriving DecidableEq

/-- Responses of the `/register` route (coordinator.py, lines 118-152). -/
inductive RegResult where
  | missingUserId
  | registered
  | alreadyRegistered (balance : ℚ)
deriving DecidableEq

/-- Responses of the `/submit_result` route (coordinator.py, lines
197-248); `blendError` stands for the uncaught torch RuntimeError
escaping the handler after `complete_task` already committed. -/
inductive SubResult where
  | missingFields
  | userNotRegistered
  | blendError
  | taskCompleted (tokensEarned newBalance : ℚ)
deriving DecidableEq

/-- Responses of the `/query_model` route (coordinator.py, lines
272-316). -/
inductive QResult where
  | missingFields
  | userNotRegistered
  | insufficient (required balance : ℚ)
  | answered (tokensSpent newBalance : ℚ)
deriving DecidableEq

/-- `/register` handler (coordinator.py, lines 118-152): a falsy
user_id (absent or empty) is a 400; a duplicate registration degrades to
success and reports the current balance. -/
def registerWorker (uid? : Option String) (now : String) (c : Coord) : RegResult × Coord :=
  match uid? with
  | none => (RegResult.missingUserId, c)
  | some uid =>
    if uid = "" then (RegResult.missingUserId, c)
    else
      match create_user uid now c.db with
      | (true, db') => (RegResult.registered, { c with db := db' })
      | (false, db') =>
        (RegResult.alreadyRegistered (((get_user uid db').map (fun u => u.total_tokens)).getD 0),
         { c with db := db' })

/-- `/submit_result` handler (coordinator.py, lines 197-248): after the
field and user checks it unconditionally calls `complete_task`, blends
the update into the model, and credits `tokens_per_task = 1` to the
submitting worker — with no check of the task's status or owner. -/
def submitResult (uid? tid? : Option String) (upd? : Option Params) (now : String)
    (c : Coord) : SubResult × Coord :=
  match uid?, tid?, upd? with
  | some uid, some tid, some upd =>
    if uid = "" ∨ tid = "" ∨ upd = [] then (SubResult.missingFields, c)
    else
      match get_user uid c.db with
      | none => (SubResult.userNotRegistered, c)
      | some _ =>
        let db1 := complete_task tid upd now c.db
        match aggregate_parameters (1/10) upd c.model with
        | none => (SubResult.blendError, { db := db1, model := c.model })
        | some m' =>
          let db2 := add_tokens uid 1 "reward" ("Completed training task " ++ tid) now db1
          (SubResult.taskCompleted 1 (((get_user uid db2).map (fun u => u.total_tokens)).getD 0),
           { db := db2, model := m' })
  | _, _, _ => (SubResult.missingFields, c)

/-- `/query_model` handler (coordinator.py, lines 272-316): fixed cost
of 1/2 token per query; an insufficient balance is rejected with code
402 before any state change. -/
def queryModel (uid? prompt? : Option String) (now : String) (c : Coord) : QResult × Coord :=
  match uid?, prompt? with
  | some uid, some prompt =>
    if uid = "" ∨ prompt = "" then (QResult.missingFields, c)
    else
      match get_user uid c.db with
      | none => (QResult.userNotRegistered, c)
      | some u =>
        if u.total_tokens < 1/2 then (QResult.insufficient (1/2) u.total_tokens, c)
        else
          let db' := add_tokens uid (-(1/2)) "query" "Model query" now c.db
          (QResult.answered (1/2) (((get_user uid db').map (fun v => v.total_tokens)).getD 0),
           { c with db := db' })
  | _, _ => (QResult.missingFields, c)

/-- The contract of `random.sample(corpus, min(3, len(corpus)))` used by
`coordinator.py:generate_tasks` (line 388): the batch has exactly
`min 3 |corpus|` elements, all drawn from the corpus. -/
def sampleOk (corpus batch : List String) : Prop :=
  batch.length = min 3 corpus.length ∧ ∀ x ∈ batch, x ∈ corpus

/-- `coordinator.py:generate_tasks` (lines 377-397): create `num_tasks`
task rows, each with a sampled batch and the fixed reward of 1 token.
The random sampler and uuid generator are abstracted as the oracles
`batches` (the i-th call's sample, constrained by `sampleOk`) and
`ids` (the i-th generated task id). -/
def generate_tasks (batches : Nat → List String) (ids : Nat → String)
    (num_tasks : Nat) (now : String) (db : Db) : Db :=
  (List.range num_tasks).foldl (fun d i => create_task (ids i) (batches i) 1 now d) db

/-- Balance-touching coordinator requests, as listed by the ledger
audit claim: registration, result submission (credit), paid query
(debit). -/
inductive Op where
  | register (uid : Option String) (now : String)
  | submit (uid tid : Option String) (upd : Option Params) (now : String)
  | query (uid prompt : Option String) (now : String)

/-- State transition of one request (response discarded). -/
def execOp (c : Coord) : Op → Coord
  | Op.register uid now => (registerWorker uid now c).2
  | Op.submit uid tid upd now => (submitResult uid tid upd now c).2
  | Op.query uid prompt now => (queryModel uid prompt now c).2

/-- Run a request sequence from a starting state. -/
def execOps (c : Coord) (ops : List Op) : Coord :=
  ops.foldl execOp c

/-- Fresh coordinator state: empty tables, initial model `m`. -/
def initCoord (m : Params) : Coord :=
  ⟨⟨[], [], []⟩, m⟩

/-- One in-flight `/get_task` handler (coordinator.py, lines 154-195)
reduced to its two database steps: read one pending task
(`get_pending_task`, line 177), then — as a separate statement — mark
it assigned and hand it out (`assign_task`, line 183).  `resp = some
(some tid)` means the caller was handed task `tid`; `some none` is the
`No tasks available` reply. -/
structure AcqThread where
  uid : String
  pc : Nat
  readRes : Option TaskRec
  resp : Option (Option String)
deriving DecidableEq

/-- One atomic database statement of the two-step acquisition. -/
def acqStep (t : AcqThread) (db : Db) : AcqThread × Db :=
  match t.pc with
  | 0 => ({ t with pc := 1, readRes := get_pending_task db }, db)
  | 1 =>
    match t.readRes with
    | none => ({ t with pc := 2, resp := some none }, db)
    | some task =>
      ({ t with pc := 2, resp := some (some task.task_id) }, assign_task task.task_id t.uid db)
  | _ => (t, db)

/-- Interleave two `/get_task` handlers under an explicit schedule:
`true` steps thread `a`, `false` steps thread `b`. -/
def runAcq2 (sched : List Bool) (a b : AcqThread) (db : Db) : AcqThread × AcqThread × Db :=
  match sched with
  | [] => (a, b, db)
  | s :: rest =>
    if s then
      let (a', db') := acqStep a db
      runAcq2 rest a' b db'
    else
      let (b', db') := acqStep b db
      runAcq2 rest a b' db'

/-! ### Basic lemmas about the embedded operations -/

theorem findUser_mem {uid : String} {u : UserRec} :
    ∀ {l : List UserRec}, findUser uid l = some u → u ∈ l ∧ u.user_id = uid := by
  intro l
  induction l with
  | nil => intro h; cases h
  | cons v rest ih =>
    intro h
    by_cases hv : v.user_id = uid
    · simp only [findUser, if_pos hv] at h
      injection h with h2
      subst h2
      exact ⟨List.mem_cons_self _ _, hv⟩
    · simp only [findUser, if_neg hv] at h
      obtain ⟨hm, he⟩ := ih h
      exact ⟨List.mem_cons_of_mem v hm, he⟩

theorem get_user_mem {uid : String} {db : Db} {u : UserRec}
    (h : get_user uid db = some u) : u ∈ db.users ∧ u.user_id = uid :=
  findUser_mem h

theorem hasUser_of_findUser {uid : String} {u : UserRec} :
    ∀ {l : List UserRec}, findUser uid l = some u → hasUser uid l = true := by
  intro l
  induction l with
  | nil => intro h; cases h
  | cons v rest ih =>
    intro h
    by_cases hv : v.user_id = uid
    · simp [hasUser, hv]
    · simp only [findUser, if_neg hv] at h
      simp [hasUser, hv, ih h]

theorem hasUser_false_not_mem {uid : String} :
    ∀ {l : List UserRec}, hasUser uid l = false → ∀ u ∈ l, u.user_id ≠ uid := by
  intro l
  induction l with
  | nil => intro _ u hu; cases hu
  | cons v rest ih =>
    intro h u hu
    by_cases hv : v.user_id = uid
    · simp [hasUser, hv] at h
    · simp only [hasUser, if_neg hv] at h
      rcases List.mem_cons.1 hu with rfl | hu'
      · exact hv
      · exact ih h u hu'

theorem setAssoc_keys (n : String) (v : Tensor) :
    ∀ cur : Params, (setAssoc cur n v).map Prod.fst = cur.map Prod.fst := by
  intro cur
  induction cur with
  | nil => rfl
  | cons p rest ih =>
    by_cases hp : p.1 = n <;> simp [setAssoc, hp, ih]

theorem findVal_setAssoc_self {n : String} {v gv : Tensor} :
    ∀ {cur : Params}, findVal n cur = some gv → findVal n (setAssoc cur n v) = some v := by
  intro cur
  induction cur with
  | nil => intro h; cases h
  | cons p rest ih =>
    intro h
    by_cases hp : p.1 = n
    · simp [setAssoc, findVal, hp]
    · simp only [findVal, if_neg hp] at h
      simp [setAssoc, findVal, hp, ih h]

theorem findVal_setAssoc_ne {n m : String} (v : Tensor) (hnm : m ≠ n) :
    ∀ cur : Params, findVal m (setAssoc cur n v) = findVal m cur := by
  intro cur
  induction cur with
  | nil => rfl
  | cons p rest ih =>
    by_cases hm : p.1 = m
    · have hp : ¬p.1 = n := by rw [hm]; exact hnm
      simp [setAssoc, findVal, hp, hm, hnm]
    · by_cases hp : p.1 = n <;>
        simp [setAssoc, findVal, hp, hm, Ne.symm hnm, ih]

theorem findVal_none_of_not_mem_keys {n : String} :
    ∀ {l : Params}, n ∉ l.map Prod.fst → findVal n l = none := by
  intro l
  induction l with
  | nil => intro _; rfl
  | cons p rest ih =>
    intro h
    simp only [List.map_cons, List.mem_cons] at h
    push_neg at h
    have hp : p.1 ≠ n := fun he => h.1 he.symm
    simp [findVal, hp, ih h.2]

theorem findVal_mem {n : String} {v : Tensor} :
    ∀ {l : Params}, findVal n l = some v → (n, v) ∈ l := by
  intro l
  induction l with
  | nil => intro h; cases h
  | cons p rest ih =>
    intro h
    by_cases hp : p.1 = n
    · simp only [findVal, if_pos hp] at h
      injection h with h2
      subst h2
      subst hp
      exact List.mem_cons_self _ _
    · simp only [findVal, if_neg hp] at h
      exact List.mem_cons_of_mem p (ih h)

theorem bcRev_self : ∀ l : List Nat, bcRev l l = some l := by
  intro l
  induction l with
  | nil => rfl
  | cons a s ih => simp [bcRev, ih]

theorem broadcastShape_self (l : List Nat) : broadcastShape l l = some l := by
  simp [broadcastShape, bcRev_self]

theorem blendLoop_none_of_bad (w : ℚ) :
    ∀ (U cur : Params), (U.map Prod.fst).Nodup →
    (∃ p ∈ U, ∃ gv, findVal p.1 cur = some gv ∧ broadcastShape gv.shape p.2.shape = none) →
    blendLoop w U cur = none := by
  intro U
  induction U with
  | nil =>
    rintro cur _ ⟨p, hp, _⟩
    cases hp
  | cons q rest ih =>
    rintro cur hnd ⟨p, hp, gv, hgv, hbc⟩
    have hnd2 : q.1 ∉ rest.map Prod.fst ∧ (rest.map Prod.fst).Nodup := by
      rw [List.map_cons, List.nodup_cons] at hnd
      exact hnd
    obtain ⟨hqrest, hnd'⟩ := hnd2
    rcases List.mem_cons.1 hp with rfl | hp'
    · have hne : ¬gv.shape = p.2.shape := by
        intro he
        rw [he, broadcastShape_self] at hbc
        cases hbc
      simp [blendLoop, hgv, combineTensor, hne, hbc]
    · cases hf : findVal q.1 cur with
      | none =>
        have hrec := ih cur hnd' ⟨p, hp', gv, hgv, hbc⟩
        simp [blendLoop, hf, hrec]
      | some gv0 =>
        cases hc : combineTensor w gv0 q.2 with
        | none => simp [blendLoop, hf, hc]
        | some nv =>
          have hpq : p.1 ≠ q.1 := by
            intro he
            exact hqrest (he ▸ List.mem_map_of_mem Prod.fst hp')
          have hrec := ih (setAssoc cur q.1 nv) hnd'
            ⟨p, hp', gv, by rw [findVal_setAssoc_ne nv hpq]; exact hgv, hbc⟩
          simp [blendLoop, hf, hc, hrec]

theorem blendLoop_keys (w : ℚ) :
    ∀ (upd cur r : Params), blendLoop w upd cur = some r →
      r.map Prod.fst = cur.map Prod.fst := by
  intro upd
  induction upd with
  | nil =>
    intro cur r h
    simp only [blendLoop] at h
    injection h with h2
    rw [h2]
  | cons p rest ih =>
    intro cur r h
    cases hf : findVal p.1 cur with
    | none =>
      simp only [blendLoop, hf] at h
      exact ih cur r h
    | some gv =>
      cases hc : combineTensor w gv p.2 with
      | none =>
        simp only [blendLoop, hf, hc] at h
        exact Option.noConfusion h
      | some nv =>
        simp only [blendLoop, hf, hc] at h
        rw [ih _ r h, setAssoc_keys]

theorem blendLoop_notin (w : ℚ) :
    ∀ (upd cur r : Params) (n : String), findVal n upd = none →
      blendLoop w upd cur = some r → findVal n r = findVal n cur := by
  intro upd
  induction upd with
  | nil =>
    intro cur r n _ h
    simp only [blendLoop] at h
    injection h with h2
    rw [h2]
  | cons p rest ih =>
    intro cur r n hn h
    by_cases hp : p.1 = n
    · rw [findVal, if_pos hp] at hn
      cases hn
    · rw [findVal, if_neg hp] at hn
      cases hf : findVal p.1 cur with
      | none =>
        simp only [blendLoop, hf] at h
        exact ih cur r n hn h
      | some gv =>
        cases hc : combineTensor w gv p.2 with
        | none =>
          simp only [blendLoop, hf, hc] at h
          exact Option.noConfusion h
        | some nv =>
          simp only [blendLoop, hf, hc] at h
          rw [ih _ r n hn h]
          exact findVal_setAssoc_ne nv (fun he => hp he.symm) cur

theorem blendLoop_success (w : ℚ) :
    ∀ (upd cur : Params), (upd.map Prod.fst).Nodup →
      (∀ p ∈ upd, ∀ t, findVal p.1 cur = some t → t.shape = p.2.shape) →
      ∃ r, blendLoop w upd cur = some r ∧
        ∀ n gv wv, findVal n cur = some gv → findVal n upd = some wv →
          findVal n r = some (Tensor.mk gv.shape
            (List.zipWith (fun x y => (1 - w) * x + w * y) gv.data wv.data)) := by
  intro upd
  induction upd with
  | nil =>
    intro cur _ _
    refine ⟨cur, rfl, ?_⟩
    intro n gv wv _ h2
    cases h2
  | cons p rest ih =>
    intro cur hnd hinv
    have hnd2 : p.1 ∉ rest.map Prod.fst ∧ (rest.map Prod.fst).Nodup := by
      rw [List.map_cons, List.nodup_cons] at hnd
      exact hnd
    obtain ⟨hqrest, hnd'⟩ := hnd2
    cases hf : findVal p.1 cur with
    | none =>
      obtain ⟨r, hr, hform⟩ := ih cur hnd'
        (fun q hq => hinv q (List.mem_cons_of_mem _ hq))
      refine ⟨r, by simp [blendLoop, hf, hr], ?_⟩
      intro n gv wv h1 h2
      by_cases hp : p.1 = n
      · rw [hp] at hf
        rw [h1] at hf
        cases hf
      · rw [findVal, if_neg hp] at h2
        exact hform n gv wv h1 h2
    | some gv0 =>
      have hshape : gv0.shape = p.2.shape := hinv p (List.mem_cons_self _ _) gv0 hf
      have hcomb : combineTensor w gv0 p.2 = some (Tensor.mk gv0.shape
          (List.zipWith (fun x y => (1 - w) * x + w * y) gv0.data p.2.data)) := by
        simp [combineTensor, hshape]
      have hinvNext : ∀ q ∈ rest, ∀ t,
          findVal q.1 (setAssoc cur p.1 (Tensor.mk gv0.shape
            (List.zipWith (fun x y => (1 - w) * x + w * y) gv0.data p.2.data))) = some t →
          t.shape = q.2.shape := by
        intro q hq t ht
        have hq1 : q.1 ≠ p.1 := fun he => hqrest (he ▸ List.mem_map_of_mem Prod.fst hq)
        rw [findVal_setAssoc_ne _ hq1] at ht
        exact hinv q (List.mem_cons_of_mem _ hq) t ht
      obtain ⟨r, hr, hform⟩ := ih (setAssoc cur p.1 (Tensor.mk gv0.shape
          (List.zipWith (fun x y => (1 - w) * x + w * y) gv0.data p.2.data))) hnd' hinvNext
      refine ⟨r, by simp [blendLoop, hf, hcomb, hr], ?_⟩
      intro n gv wv h1 h2
      by_cases hp : p.1 = n
      · subst hp
        have hgv : gv = gv0 := by
          have := h1.symm.trans hf
          exact Option.some.inj this
        have hwv : wv = p.2 := by
          simp [findVal] at h2
          exact h2.symm
        have hrestnone : findVal p.1 rest = none := findVal_none_of_not_mem_keys hqrest
        have hnr := blendLoop_notin w rest _ r p.1 hrestnone hr
        rw [hnr, findVal_setAssoc_self hf, hgv, hwv]
      · rw [findVal, if_neg hp] at h2
        have h1' : findVal n (setAssoc cur p.1 (Tensor.mk gv0.shape
            (List.zipWith (fun x y => (1 - w) * x + w * y) gv0.data p.2.data))) = some gv := by
          rw [findVal_setAssoc_ne _ (fun he => hp he.symm)]
          exact h1
        exact hform n gv wv h1' h2

theorem findVal_of_mem_nodup :
    ∀ {model : Params}, (model.map Prod.fst).Nodup →
      ∀ q ∈ model, findVal q.1 model = some q.2 := by
  intro model
  induction model with
  | nil => intro _ q hq; cases hq
  | cons p rest ih =>
    intro hnd q hq
    have hnd2 : p.1 ∉ rest.map Prod.fst ∧ (rest.map Prod.fst).Nodup := by
      rw [List.map_cons, List.nodup_cons] at hnd
      exact hnd
    rcases List.mem_cons.1 hq with rfl | hq'
    · simp [findVal]
    · have hne : p.1 ≠ q.1 := fun he => hnd2.1 (he ▸ List.mem_map_of_mem Prod.fst hq')
      simp [findVal, hne, ih hnd2.2 q hq']

theorem set_parameters_of_shapes (newp model : Params)
    (hsh : ∀ q ∈ model, ∀ t, findVal q.1 newp = some t → t.shape = q.2.shape) :
    set_parameters newp model
      = some (model.map (fun q => (q.1, (findVal q.1 newp).getD q.2))) := by
  simp only [set_parameters]
  split
  · rfl
  next hcond =>
    exfalso
    apply hcond
    rw [List.all_eq_true]
    intro q hq
    cases hf : findVal q.1 newp with
    | none => simp [hf]
    | some t => simp [hf, hsh q hq t hf]

theorem findVal_map_set (newp : Params) :
    ∀ (model : Params) (n : String),
      findVal n (model.map (fun q => (q.1, (findVal q.1 newp).getD q.2)))
        = (findVal n model).map (fun v => (findVal n newp).getD v) := by
  intro model
  induction model with
  | nil => intro n; rfl
  | cons p rest ih =>
    intro n
    by_cases hp : p.1 = n
    · subst hp
      simp [findVal]
    · simp [findVal, hp, ih]

theorem aggregate_parameters_notin (w' : ℚ) (U m : Params) (n : String)
    (h : findVal n U = none) :
    findVal n ((aggregate_parameters w' U m).getD m) = findVal n m := by
  cases hr : blendLoop w' U m with
  | none => simp [aggregate_parameters, hr]
  | some cp =>
    have hcp : findVal n cp = findVal n m := blendLoop_notin w' U m cp n h hr
    simp only [aggregate_parameters, hr]
    simp only [set_parameters]
    split
    · simp only [Option.getD_some, findVal_map_set]
      cases hm : findVal n m with
      | none => rfl
      | some v => simp [hcp, hm]
    · simp

theorem applyBlends_notin :
    ∀ (blends : List (ℚ × Params)) (m : Params) (n : String),
      (∀ b ∈ blends, findVal n b.2 = none) →
      findVal n (applyBlends blends m) = findVal n m := by
  intro blends
  induction blends with
  | nil => intro m n _; rfl
  | cons b rest ih =>
    intro m n h
    have h2 : ∀ b' ∈ rest, findVal n b'.2 = none :=
      fun b' hb' => h b' (List.mem_cons_of_mem _ hb')
    show findVal n (applyBlends rest ((aggregate_parameters b.1 b.2 m).getD m)) = findVal n m
    rw [ih _ n h2, aggregate_parameters_notin b.1 b.2 m n (h b (List.mem_cons_self _ _))]

theorem hasUser_of_mem {uid : String} {v : UserRec} :
    ∀ {l : List UserRec}, v ∈ l → v.user_id = uid → hasUser uid l = true := by
  intro l
  induction l with
  | nil => intro h _; cases h
  | cons p rest ih =>
    intro hm hid
    rcases List.mem_cons.1 hm with rfl | hm'
    · simp [hasUser, hid]
    · by_cases hp : p.user_id = uid <;> simp [hasUser, hp, ih hm' hid]

theorem txnSum_append_one (uid : String) (txns : List TxnRec) (t : TxnRec) :
    txnSum uid (txns ++ [t])
      = txnSum uid txns + (if t.user_id = uid then t.amount else 0) := by
  by_cases h : t.user_id = uid <;>
    simp [txnSum, List.filter_append, h]

theorem txnSum_zero (uid : String) (txns : List TxnRec)
    (h : ∀ t ∈ txns, t.user_id ≠ uid) : txnSum uid txns = 0 := by
  have hnil : txns.filter (fun t => t.user_id = uid) = [] := by
    rw [List.filter_eq_nil_iff]
    intro t ht
    simp [h t ht]
  simp [txnSum, hnil]

theorem add_tokens_txns (uid : String) (amt : ℚ) (k d now : String) (db : Db) :
    (add_tokens uid amt k d now db).txns = db.txns ++ [⟨uid, amt, k, d, now⟩] := rfl

theorem add_tokens_users (uid : String) (amt : ℚ) (k d now : String) (db : Db) :
    (add_tokens uid amt k d now db).users = db.users.map (fun u =>
      if u.user_id = uid then { u with total_tokens := u.total_tokens + amt } else u) := rfl

theorem add_tokens_balanced (uid : String) (amt : ℚ) (k d now : String) (db : Db)
    (h : balancedDb db) : balancedDb (add_tokens uid amt k d now db) := by
  intro u hu
  rw [add_tokens_users] at hu
  obtain ⟨v, hv, rfl⟩ := List.mem_map.1 hu
  have hbase := h v hv
  by_cases hvu : v.user_id = uid
  · simp only [if_pos hvu, add_tokens_txns, txnSum_append_one]
    simp [hvu, hbase]
  · simp only [if_neg hvu, add_tokens_txns, txnSum_append_one]
    simp [hbase, Ne.symm hvu]

theorem add_tokens_backed (uid : String) (amt : ℚ) (k d now : String) (db : Db)
    (h : txnsBacked db) (hex : ∃ u ∈ db.users, u.user_id = uid) :
    txnsBacked (add_tokens uid amt k d now db) := by
  intro t ht
  rw [add_tokens_txns] at ht
  have husers : ∀ v ∈ db.users,
      ∃ u' ∈ (add_tokens uid amt k d now db).users, u'.user_id = v.user_id := by
    intro v hv
    rw [add_tokens_users]
    refine ⟨if v.user_id = uid then { v with total_tokens := v.total_tokens + amt } else v,
      List.mem_map_of_mem _ hv, ?_⟩
    by_cases hvu : v.user_id = uid <;> simp [hvu]
  rcases List.mem_append.1 ht with ht' | ht'
  · obtain ⟨u, hu, huid⟩ := h t ht'
    obtain ⟨u', hu', huid'⟩ := husers u hu
    exact ⟨u', hu', huid'.trans huid⟩
  · have heq : t = ⟨uid, amt, k, d, now⟩ := List.mem_singleton.1 ht'
    subst heq
    obtain ⟨u, hu, huid⟩ := hex
    obtain ⟨u', hu', huid'⟩ := husers u hu
    exact ⟨u', hu', by rw [huid', huid]⟩

theorem execOp_preserves (c : Coord) (op : Op)
    (h1 : balancedDb c.db) (h2 : txnsBacked c.db) :
    balancedDb (execOp c op).db ∧ txnsBacked (execOp c op).db := by
  cases op with
  | register uid? now =>
    cases uid? with
    | none => exact ⟨h1, h2⟩
    | some uid =>
      simp only [execOp, registerWorker]
      by_cases hu : uid = ""
      · rw [if_pos hu]
        exact ⟨h1, h2⟩
      · rw [if_neg hu]
        by_cases hhas : hasUser uid c.db.users = true
        · simp only [create_user]
          rw [if_pos hhas]
          exact ⟨h1, h2⟩
        · have hhasF : hasUser uid c.db.users = false := by
            revert hhas
            cases hasUser uid c.db.users <;> simp
          simp only [create_user]
          rw [if_neg hhas]
          constructor
          · intro u hu'
            rcases List.mem_append.1 hu' with hm | hm
            · exact h1 u hm
            · have heq : u = ⟨uid, now, 0, 0⟩ := List.mem_singleton.1 hm
              subst heq
              have hno : ∀ t ∈ c.db.txns, t.user_id ≠ uid := by
                intro t ht heq
                obtain ⟨v, hv, hvid⟩ := h2 t ht
                have := hasUser_of_mem hv (hvid.trans heq)
                rw [hhasF] at this
                cases this
              exact (txnSum_zero uid c.db.txns hno).symm
          · intro t ht
            obtain ⟨v, hv, hvid⟩ := h2 t ht
            exact ⟨v, List.mem_append_left _ hv, hvid⟩
  | submit uid? tid? upd? now =>
    cases uid? with
    | none => exact ⟨h1, h2⟩
    | some uid =>
      cases tid? with
      | none => exact ⟨h1, h2⟩
      | some tid =>
        cases upd? with
        | none => exact ⟨h1, h2⟩
        | some upd =>
          simp only [execOp, submitResult]
          by_cases hmiss : uid = "" ∨ tid = "" ∨ upd = []
          · rw [if_pos hmiss]
            exact ⟨h1, h2⟩
          · rw [if_neg hmiss]
            cases hg : get_user uid c.db with
            | none => exact ⟨h1, h2⟩
            | some u =>
              cases hagg : aggregate_parameters (1/10) upd c.model with
              | none => exact ⟨h1, h2⟩
              | some m' =>
                have hex : ∃ v ∈ (complete_task tid upd now c.db).users, v.user_id = uid := by
                  obtain ⟨hm, hid⟩ := get_user_mem hg
                  exact ⟨u, hm, hid⟩
                exact ⟨add_tokens_balanced _ _ _ _ _ _ h1,
                  add_tokens_backed _ _ _ _ _ _ h2 hex⟩
  | query uid? prompt? now =>
    cases uid? with
    | none => exact ⟨h1, h2⟩
    | some uid =>
      cases prompt? with
      | none => exact ⟨h1, h2⟩
      | some prompt =>
        by_cases hmiss : uid = "" ∨ prompt = ""
        · have h3 : execOp c (Op.query (some uid) (some prompt) now) = c := by
            show (queryModel (some uid) (some prompt) now c).2 = c
            simp only [queryModel]
            rw [if_pos hmiss]
          rw [h3]
          exact ⟨h1, h2⟩
        · cases hg : get_user uid c.db with
          | none =>
            have h3 : execOp c (Op.query (some uid) (some prompt) now) = c := by
              show (queryModel (some uid) (some prompt) now c).2 = c
              simp only [queryModel]
              rw [if_neg hmiss, hg]
            rw [h3]
            exact ⟨h1, h2⟩
          | some u =>
            by_cases hb : u.total_tokens < 1/2
            · have h3 : execOp c (Op.query (some uid) (some prompt) now) = c := by
                show (queryModel (some uid) (some prompt) now c).2 = c
                simp only [queryModel]
                rw [if_neg hmiss, hg]
                exact congrArg Prod.snd (if_pos hb)
              rw [h3]
              exact ⟨h1, h2⟩
            · have h3 : execOp c (Op.query (some uid) (some prompt) now)
                  = { c with db := add_tokens uid (-(1/2)) "query" "Model query" now c.db } := by
                show (queryModel (some uid) (some prompt) now c).2 = _
                simp only [queryModel]
                rw [if_neg hmiss, hg]
                exact congrArg Prod.snd (if_neg hb)
              rw [h3]
              have hex : ∃ v ∈ c.db.users, v.user_id = uid := by
                obtain ⟨hm, hid⟩ := get_user_mem hg
                exact ⟨u, hm, hid⟩
              exact ⟨add_tokens_balanced _ _ _ _ _ _ h1,
                add_tokens_backed _ _ _ _ _ _ h2 hex⟩

theorem execOps_preserves : ∀ (ops : List Op) (c : Coord),
    balancedDb c.db → txnsBacked c.db →
    balancedDb (execOps c ops).db ∧ txnsBacked (execOps c ops).db := by
  intro ops
  induction ops with
  | nil => intro c hb ht; exact ⟨hb, ht⟩
  | cons op rest ih =>
    intro c hb ht
    obtain ⟨hb', ht'⟩ := execOp_preserves c op hb ht
    exact ih (execOp c op) hb' ht'

/-! ### Claim theorems -/

/-- C1: against a ledger with exactly one pending task, the two-step
read-then-assign implementation of `/get_task` lets an interleaving of
two concurrent callers hand the same task to both of them: under the
schedule read-A, read-B, write-A, write-B both workers receive task
`t1`, contradicting the required atomic acquisition in which exactly one
caller gets the task and the other gets NoTasksAvailable. -/
theorem getTask_race_double_assignment :
    let db : Db := ⟨[⟨"w1", "t0", 0, 0⟩, ⟨"w2", "t0", 0, 0⟩],
                    [⟨"t1", "t0", none, "pending", ["x"], none, 1, none⟩], []⟩
    let r := runAcq2 [true, false, true, false]
        ⟨"w1", 0, none, none⟩ ⟨"w2", 0, none, none⟩ db
    (db.tasks.filter (fun t => t.status = "pending")).length = 1 ∧
    r.1.resp = some (some "t1") ∧
    r.2.1.resp = some (some "t1") ∧
    r.2.2.tasks.map (fun t => t.assigned_to) = [some "w2"] := by
  decide

/-- C2: `/submit_result` performs no task-status check, so resubmitting
an already-`completed` task succeeds again and credits the worker a
second time: starting from balance 1 earned for task `t1`, a repeated
submission returns success and leaves the balance at 2 instead of
failing with InvalidTaskState and leaving state unchanged. -/
theorem submitResult_double_credit :
    let c : Coord := ⟨⟨[⟨"w", "t0", 1, 0⟩],
        [⟨"t1", "t0", some "w", "completed", ["x"], some [("p", Tensor.mk [1] [1])], 1, some "t1"⟩],
        [⟨"w", 1, "reward", "Completed training task t1", "t1"⟩]⟩,
      [("p", Tensor.mk [1] [0])]⟩
    let r := submitResult (some "w") (some "t1") (some [("p", Tensor.mk [1] [1])]) "t2" c
    r.1 = SubResult.taskCompleted 1 2 ∧
    r.2.db.users.map (fun u => u.total_tokens) = [2] ∧
    r.2.db.txns.length = 2 := by
  simp [submitResult, get_user, complete_task, add_tokens, aggregate_parameters,
    blendLoop, combineTensor, set_parameters, setAssoc, findVal, findUser]
  norm_num

/-- C3: `/submit_result` never compares the caller with the task's
`assigned_to`, so a worker can complete another worker's task and take
the reward: with task `t1` assigned to alice, a submission by bob
succeeds, marks the task completed, and credits bob one token, instead
of rejecting with NotYourTask and leaving state unchanged. -/
theorem submitResult_no_ownership_check :
    let c : Coord := ⟨⟨[⟨"alice", "t0", 0, 0⟩, ⟨"bob", "t0", 0, 0⟩],
        [⟨"t1", "t0", some "alice", "assigned", ["x"], none, 1, none⟩], []⟩,
      [("p", Tensor.mk [1] [0])]⟩
    let r := submitResult (some "bob") (some "t1") (some [("p", Tensor.mk [1] [1])]) "t2" c
    r.1 = SubResult.taskCompleted 1 1 ∧
    r.2.db.tasks.map (fun t => (t.status, t.assigned_to)) = [("completed", some "alice")] ∧
    (get_user "bob" r.2.db).map (fun u => u.total_tokens) = some 1 := by
  simp [submitResult, get_user, complete_task, add_tokens, aggregate_parameters,
    blendLoop, combineTensor, set_parameters, setAssoc, findVal, findUser]

/-- C7: a paid query by a registered worker whose balance is strictly
below the 1/2-token cost is rejected with the insufficient-balance
error, reporting the required cost and the current balance, and the
whole coordinator state is returned unchanged. -/
theorem queryModel_insufficient_balance (uid prompt now : String) (c : Coord) (u : UserRec)
    (hu : uid ≠ "") (hp : prompt ≠ "")
    (hget : get_user uid c.db = some u) (hlt : u.total_tokens < 1/2) :
    queryModel (some uid) (some prompt) now c = (QResult.insufficient (1/2) u.total_tokens, c) := by
  simp only [queryModel]
  rw [if_neg (by simp [hu, hp]), hget]
  exact if_pos hlt

/-- C7 witness: cost 1/2 against balance 3/10 is rejected and the
balance stays 3/10. -/
theorem queryModel_insufficient_balance_witness :
    let c : Coord := ⟨⟨[⟨"w", "t0", 3/10, 0⟩], [], [⟨"w", 3/10, "reward", "d", "t0"⟩]⟩, []⟩
    queryModel (some "w") (some "hi") "t1" c = (QResult.insufficient (1/2) (3/10), c) :=
  queryModel_insufficient_balance "w" "hi" "t1"
    ⟨⟨[⟨"w", "t0", 3/10, 0⟩], [], [⟨"w", 3/10, "reward", "d", "t0"⟩]⟩, []⟩
    ⟨"w", "t0", 3/10, 0⟩ (by decide) (by decide) rfl (by norm_num)

/-- C8: registering a worker id that already has an account does not
error: the handler degrades to a success response reporting the
account's current balance, and the coordinator state — balance and
created_at included — is returned unchanged. -/
theorem registerWorker_idempotent (uid now : String) (c : Coord) (u : UserRec)
    (hu : uid ≠ "") (hget : get_user uid c.db = some u) :
    registerWorker (some uid) now c = (RegResult.alreadyRegistered u.total_tokens, c) := by
  have hfind : findUser uid c.db.users = some u := hget
  have hhas : hasUser uid c.db.users = true := hasUser_of_findUser hfind
  simp only [registerWorker]
  rw [if_neg hu]
  simp only [create_user, hhas, if_true]
  simp [get_user, hfind]

/-- C8 witness: re-registering `w`, who holds 7/2 tokens, reports the
balance 7/2 and leaves the account untouched. -/
theorem registerWorker_idempotent_witness :
    let c : Coord := ⟨⟨[⟨"w", "t0", 7/2, 0⟩], [], []⟩, []⟩
    registerWorker (some "w") "t9" c = (RegResult.alreadyRegistered (7/2), c) :=
  registerWorker_idempotent "w" "t9" ⟨⟨[⟨"w", "t0", 7/2, 0⟩], [], []⟩, []⟩
    ⟨"w", "t0", 7/2, 0⟩ (by decide) rfl

/-- C10: a `/submit_result` request whose `updated_parameters` field is
absent or an empty mapping is rejected by the falsy-field check as
missing required fields, before any state change: no task completion,
no blend, no reward. -/
theorem submitResult_empty_update_rejected (uid? tid? : Option String) (upd? : Option Params)
    (now : String) (c : Coord)
    (h : upd? = none ∨ upd? = some []) :
    submitResult uid? tid? upd? now c = (SubResult.missingFields, c) := by
  rcases h with h | h <;> subst h <;>
    cases uid? <;> cases tid? <;> simp [submitResult]

/-- C10 witness: a registered worker submitting an empty parameter
update for an assigned task is rejected with missing fields and nothing
changes. -/
theorem submitResult_empty_update_rejected_witness :
    let c : Coord := ⟨⟨[⟨"w", "t0", 0, 0⟩],
        [⟨"t1", "t0", some "w", "assigned", ["x"], none, 1, none⟩], []⟩,
      [("p", Tensor.mk [1] [0])]⟩
    submitResult (some "w") (some "t1") (some []) "t2" c = (SubResult.missingFields, c) :=
  submitResult_empty_update_rejected (some "w") (some "t1") (some []) "t2"
    ⟨⟨[⟨"w", "t0", 0, 0⟩], [⟨"t1", "t0", some "w", "assigned", ["x"], none, 1, none⟩], []⟩,
      [("p", Tensor.mk [1] [0])]⟩ (Or.inr rfl)

/-- C9 counterexample: with an empty corpus, `random.sample(corpus,
min(3, 0))` legitimately returns the empty batch, and `generate_tasks 1`
creates one task record — not zero — and signals nothing; the claimed
EmptyCorpus error and zero-task outcome do not hold. -/
theorem generate_tasks_empty_corpus_counterexample :
    sampleOk [] [] ∧
    (generate_tasks (fun _ => []) (fun i => "task-" ++ toString i) 1 "t0"
      ⟨[], [], []⟩).tasks.length = 1 := by
  refine ⟨⟨by simp, by simp⟩, ?_⟩
  rfl

/-- C9 amended: `generate_tasks` has no error condition at all.  With an
empty corpus the per-task sample is forced to be empty, and the call
creates exactly `n` new `pending` task records with empty data batches
and the fixed reward, touching no other table — it does not signal
EmptyCorpus and does not generate zero tasks. -/
theorem generate_tasks_empty_corpus (batches : Nat → List String) (ids : Nat → String)
    (n : Nat) (now : String) (db : Db)
    (h : ∀ i, sampleOk [] (batches i)) :
    (generate_tasks batches ids n now db).tasks
      = db.tasks ++ (List.range n).map (fun i =>
          ⟨ids i, now, none, "pending", [], none, 1, none⟩)
  ∧ (generate_tasks batches ids n now db).users = db.users
  ∧ (generate_tasks batches ids n now db).txns = db.txns := by
  have hb : ∀ i, batches i = [] := by
    intro i
    have := (h i).1
    simpa using List.length_eq_zero.mp (by simpa using this)
  have hstep : ∀ m, generate_tasks batches ids (m + 1) now db
      = create_task (ids m) (batches m) 1 now (generate_tasks batches ids m now db) := by
    intro m
    simp [generate_tasks, List.range_succ]
  induction n with
  | zero => simp [generate_tasks]
  | succ k ih =>
    obtain ⟨h1, h2, h3⟩ := ih
    rw [hstep k]
    refine ⟨?_, ?_, ?_⟩
    · simp [create_task, h1, hb k, List.range_succ]
    · simp [create_task, h2]
    · simp [create_task, h3]

/-- C9 witness: generating two tasks from the empty corpus yields two
pending tasks with empty batches. -/
theorem generate_tasks_empty_corpus_witness :
    (generate_tasks (fun _ => []) (fun _ => "t") 2 "t0" ⟨[], [], []⟩).tasks
      = [] ++ (List.range 2).map (fun _ =>
          ⟨"t", "t0", none, "pending", [], none, 1, none⟩) :=
  (generate_tasks_empty_corpus (fun _ => []) (fun _ => "t") 2 "t0" ⟨[], [], []⟩
    (fun _ => ⟨by simp, by simp⟩)).1

/-- C5 counterexample: at this concrete input — stored shape [2],
update shape [1], which broadcast to the stored shape [2] — no failure
is raised anywhere: torch silently broadcasts in the blend loop, the
staged tensor matches the model's shape so the load succeeds, and the
global model changes.  This contradicts the claim that every shape
difference signals IncompatibleUpdateShape and aborts unchanged. -/
theorem aggregate_parameters_broadcast_counterexample :
    (Tensor.mk [1] [5]).shape ≠ (Tensor.mk [2] [0, 0]).shape ∧
    aggregate_parameters (1/10) [("p", Tensor.mk [1] [5])] [("p", Tensor.mk [2] [0, 0])]
      = some [("p", Tensor.mk [2] [1/2, 1/2])] := by
  constructor
  · decide
  · simp [aggregate_parameters, blendLoop, combineTensor, broadcastShape, bcRev,
      set_parameters, setAssoc, findVal, bGet, unflattenRev, flattenRev, List.range_succ]
    norm_num

/-- C5 amended: whenever some update entry shares a name with the store
but its shape is not broadcast-compatible with the stored shape, the
blend aborts — torch raises inside the blend loop, `set_parameters` is
never reached, and the in-memory model object keeps its pre-call value,
with no parameter partially updated.  The claim's universal "every
shape difference fails" does not survive: the counterexample exhibits a
differing shape that broadcasts back to the stored shape and is
silently blended. -/
theorem aggregate_parameters_incompatible_shape (w : ℚ) (U model : Params)
    (hU : (U.map Prod.fst).Nodup)
    (h : ∃ p ∈ U, ∃ gv, findVal p.1 model = some gv ∧
          broadcastShape gv.shape p.2.shape = none) :
    aggregate_parameters w U model = none
  ∧ ∀ (c : Coord) (uid tid now : String), c.model = model →
      ((submitResult (some uid) (some tid) (some U) now c).2).model = model := by
  have hnone : ∀ w' : ℚ, aggregate_parameters w' U model = none := by
    intro w'
    simp [aggregate_parameters, blendLoop_none_of_bad w' U model hU h]
  refine ⟨hnone w, ?_⟩
  intro c uid tid now hcm
  by_cases hmiss : uid = "" ∨ tid = "" ∨ U = []
  · simp [submitResult, hmiss, hcm]
  · cases hg : get_user uid c.db with
    | none => simp [submitResult, hmiss, hg, hcm]
    | some u =>
      subst hcm
      simp [submitResult, hmiss, hg, hnone]

/-- C5 witness: shapes [2] (stored) and [3] (update) do not broadcast,
and the blend on them fails, leaving no new model to install. -/
theorem aggregate_parameters_incompatible_shape_witness :
    ((([("p", Tensor.mk [3] [1, 2, 3])] : Params).map Prod.fst).Nodup ∧
      findVal "p" [("p", Tensor.mk [2] [0, 0])] = some (Tensor.mk [2] [0, 0]) ∧
      broadcastShape [2] [3] = none) ∧
    aggregate_parameters (1/10) [("p", Tensor.mk [3] [1, 2, 3])] [("p", Tensor.mk [2] [0, 0])]
      = none :=
  ⟨⟨by decide, by decide, by decide⟩,
    (aggregate_parameters_incompatible_shape (1/10)
      [("p", Tensor.mk [3] [1, 2, 3])] [("p", Tensor.mk [2] [0, 0])]
      (by decide)
      ⟨("p", Tensor.mk [3] [1, 2, 3]), by decide,
        Tensor.mk [2] [0, 0], by decide, by decide⟩).1⟩

/-- C4: for a blend with weight `w` whose update has duplicate-free
names and shape-compatible values, the blend succeeds and: every name in
both store and update gets exactly `(1-w)*old + w*update` element-wise;
every stored name absent from the update keeps its value; names only in
the update are ignored, the store's name set never changing; and over
any sequence of blend calls a name absent from every update is
untouched. -/
theorem aggregate_parameters_blend_semantics (w : ℚ) (U model : Params)
    (hU : (U.map Prod.fst).Nodup) (hM : (model.map Prod.fst).Nodup)
    (hcompat : ∀ p ∈ U, ∀ q ∈ model, p.1 = q.1 → p.2.shape = q.2.shape) :
    (∃ model', aggregate_parameters w U model = some model'
      ∧ model'.map Prod.fst = model.map Prod.fst
      ∧ (∀ n gv wv, findVal n model = some gv → findVal n U = some wv →
          findVal n model' = some (Tensor.mk gv.shape
            (List.zipWith (fun x y => (1 - w) * x + w * y) gv.data wv.data)))
      ∧ (∀ n, findVal n U = none → findVal n model' = findVal n model))
  ∧ (∀ (blends : List (ℚ × Params)) (n : String),
      (∀ b ∈ blends, findVal n b.2 = none) →
      findVal n (applyBlends blends model) = findVal n model) := by
  refine ⟨?_, fun blends n h => applyBlends_notin blends model n h⟩
  have hinv : ∀ p ∈ U, ∀ t, findVal p.1 model = some t → t.shape = p.2.shape := by
    intro p hp t ht
    exact (hcompat p hp (p.1, t) (findVal_mem ht) rfl).symm
  obtain ⟨r, hr, hform⟩ := blendLoop_success w U model hU hinv
  have hsh : ∀ q ∈ model, ∀ t, findVal q.1 r = some t → t.shape = q.2.shape := by
    intro q hq t ht
    have hqm : findVal q.1 model = some q.2 := findVal_of_mem_nodup hM q hq
    cases hfU : findVal q.1 U with
    | none =>
      rw [blendLoop_notin w U model r q.1 hfU hr, hqm] at ht
      rw [Option.some.inj ht]
    | some wv =>
      rw [hform q.1 q.2 wv hqm hfU] at ht
      rw [← Option.some.inj ht]
  have hset := set_parameters_of_shapes r model hsh
  refine ⟨model.map (fun q => (q.1, (findVal q.1 r).getD q.2)), ?_, ?_, ?_, ?_⟩
  · simp [aggregate_parameters, hr, hset]
  · rw [List.map_map]
    rfl
  · intro n gv wv h1 h2
    rw [findVal_map_set r model n, h1, hform n gv wv h1 h2]
    rfl
  · intro n h2
    rw [findVal_map_set r model n]
    have hcp := blendLoop_notin w U model r n h2 hr
    cases hm : findVal n model with
    | none => rfl
    | some v => simp [hcp, hm]

/-- C4 witness: blending weight 1/10 of an update touching `p` (and an
unknown name `x`) into a two-parameter store updates `p` element-wise,
leaves `q` alone, and keeps the name set. -/
theorem aggregate_parameters_blend_semantics_witness :
    let U : Params := [("p", Tensor.mk [2] [3, 4]), ("x", Tensor.mk [1] [9])]
    let M : Params := [("p", Tensor.mk [2] [1, 2]), ("q", Tensor.mk [1] [5])]
    (U.map Prod.fst).Nodup ∧ (M.map Prod.fst).Nodup ∧
    (∀ p ∈ U, ∀ q ∈ M, p.1 = q.1 → p.2.shape = q.2.shape) ∧
    (∃ model', aggregate_parameters (1/10) U M = some model'
      ∧ model'.map Prod.fst = M.map Prod.fst
      ∧ (∀ n gv wv, findVal n M = some gv → findVal n U = some wv →
          findVal n model' = some (Tensor.mk gv.shape
            (List.zipWith (fun x y => (1 - (1/10)) * x + (1/10) * y) gv.data wv.data)))
      ∧ (∀ n, findVal n U = none → findVal n model' = findVal n M)) := by
  intro U M
  exact ⟨by decide, by decide, by decide,
    (aggregate_parameters_blend_semantics (1/10) U M (by decide) (by decide) (by decide)).1⟩

/-- C6: starting from a fresh database, after any sequence of
registrations, result submissions, and paid queries, every user row's
denormalized `total_tokens` equals the sum of that user's append-only
transaction amounts (0 at registration); and the sole balance-mutating
operation, `add_tokens`, appends exactly one transaction carrying the
same amount it applies to the matching balances. -/
theorem ledger_balance_audit (m : Params) (ops : List Op) :
    (∀ u ∈ (execOps (initCoord m) ops).db.users,
      u.total_tokens = txnSum u.user_id (execOps (initCoord m) ops).db.txns)
  ∧ (∀ (uid : String) (amt : ℚ) (k d now : String) (db : Db),
      (add_tokens uid amt k d now db).txns = db.txns ++ [⟨uid, amt, k, d, now⟩]
    ∧ (add_tokens uid amt k d now db).users = db.users.map (fun u =>
        if u.user_id = uid then { u with total_tokens := u.total_tokens + amt } else u)) := by
  refine ⟨?_, fun uid amt k d now db => ⟨rfl, rfl⟩⟩
  have hinit1 : balancedDb (initCoord m).db := by intro u hu; cases hu
  have hinit2 : txnsBacked (initCoord m).db := by intro t ht; cases ht
  exact (execOps_preserves ops (initCoord m) hinit1 hinit2).1

/-- C6 witness: after registering `w`, submitting a result (credit 1)
and running a paid query (debit 1/2), `w`'s stored balance equals the
sum of `w`'s two transaction amounts. -/
theorem ledger_balance_audit_witness :
    ∀ u ∈ (execOps (initCoord [("p", Tensor.mk [1] [0])])
        [Op.register (some "w") "t0",
         Op.submit (some "w") (some "t1") (some [("p", Tensor.mk [1] [1])]) "t1",
         Op.query (some "w") (some "hello") "t2"]).db.users,
      u.total_tokens = txnSum u.user_id (execOps (initCoord [("p", Tensor.mk [1] [0])])
        [Op.register (some "w") "t0",
         Op.submit (some "w") (some "t1") (some [("p", Tensor.mk [1] [1])]) "t1",
         Op.query (some "w") (some "hello") "t2"]).db.txns :=
  (ledger_balance_audit [("p", Tensor.mk [1] [0])]
    [Op.register (some "w") "t0",
     Op.submit (some "w") (some "t1") (some [("p", Tensor.mk [1] [1])]) "t1",
     Op.query (some "w") (some "hello") "t2"]).1

end Hydra
